import Mathlib

/-!
Verification of the moderation-ledger core of the Helix bot
(`src/cogs/mod.py`): per-guild JSON module state, case-number
allocation, the case index, the warning ledger, the duration
parser/humanizer, and the control flow of the `_log_case` and
`duration` / `reason` command handlers.

The per-guild `GuildConfig.modules` JSON document is modelled as an
association list of string keys to JSON-like values; Python `dict`
assignment (replace the binding in place, keep every other key, append
new keys at the end) is modelled by `jset`, `dict.pop` by `jdel`, and
`dict.get` by `jget`.
-/

/-- JSON-like values stored inside the per-guild `modules` document. -/
inductive JVal where
  | jstr : String → JVal
  | jobj : List (String × JVal) → JVal
  | jarr : List JVal → JVal

/-- `d.get(k)`: first binding of `k` in the document, if any. -/
def jget : List (String × JVal) → String → Option JVal
  | [], _ => none
  | (k', v) :: rest, k => if k' = k then some v else jget rest k

/-- `d[k] = v`: replace the binding of `k` in place (Python dicts keep
insertion order and have no duplicate keys), appending if absent. -/
def jset : List (String × JVal) → String → JVal → List (String × JVal)
  | [], k, v => [(k, v)]
  | (k', v') :: rest, k, v =>
    if k' = k then (k, v) :: rest else (k', v') :: jset rest k v

/-- `d.pop(k)`: drop the binding of `k`. -/
def jdel : List (String × JVal) → String → List (String × JVal)
  | [], _ => []
  | (k', v') :: rest, k => if k' = k then rest else (k', v') :: jdel rest k

theorem jget_jset_eq (o : List (String × JVal)) (k : String) (v : JVal) :
    jget (jset o k v) k = some v := by
  induction o with
  | nil => simp [jset, jget]
  | cons p rest ih =>
    by_cases h : p.1 = k
    · simp [jset, jget, h]
    · simp [jset, jget, h, ih]

theorem jget_jset_ne (o : List (String × JVal)) (k k' : String) (v : JVal)
    (h : k' ≠ k) : jget (jset o k v) k' = jget o k' := by
  have hkk : ¬ k = k' := fun hh => h hh.symm
  induction o with
  | nil => simp [jset, jget, hkk]
  | cons p rest ih =>
    obtain ⟨pk, pv⟩ := p
    by_cases hp : pk = k
    · subst hp
      simp [jset, jget, hkk]
    · simp only [jset, if_neg hp, jget]
      by_cases hp' : pk = k' <;> simp [hp', ih]

theorem jget_jdel_ne (o : List (String × JVal)) (k k' : String)
    (h : k' ≠ k) : jget (jdel o k) k' = jget o k' := by
  have hkk : ¬ k = k' := fun hh => h hh.symm
  induction o with
  | nil => simp [jdel]
  | cons p rest ih =>
    obtain ⟨pk, pv⟩ := p
    by_cases hp : pk = k
    · subst hp
      simp [jdel, jget, hkk]
    · simp only [jdel, if_neg hp, jget]
      by_cases hp' : pk = k' <;> simp [hp', ih]

/-!  Decimal rendering (Python `str(n)` / f-string interpolation of a
non-negative integer) and decimal reading (Python `int(s)` on a digit
string).  `decReprAux` is fuel-indexed so that it is structurally
recursive and kernel-evaluable; `decRepr n` supplies ample fuel. -/

def decReprAux : Nat → Nat → List Char
  | 0, _ => []
  | fuel + 1, n =>
    if n < 10 then [Nat.digitChar n]
    else decReprAux fuel (n / 10) ++ [Nat.digitChar (n % 10)]

/-- The decimal digit characters of `n`, most significant first. -/
def decRepr (n : Nat) : List Char := decReprAux (n + 1) n

/-- Left fold reading a run of decimal digit characters, as `int` does. -/
def accumD (l : List Char) (a : Nat) : Nat :=
  l.foldl (fun acc c => 10 * acc + (c.toNat - 48)) a

/-- Python `int(s)` for the decimal strings this code stores. -/
def decValue (l : List Char) : Nat := accumD l 0

theorem decReprAux_fuel (n : Nat) : ∀ f₁ f₂, n < f₁ → n < f₂ →
    decReprAux f₁ n = decReprAux f₂ n := by
  induction n using Nat.strong_induction_on with
  | _ n ih =>
    intro f₁ f₂ h1 h2
    match f₁, f₂, h1, h2 with
    | g₁ + 1, g₂ + 1, h1, h2 =>
      by_cases h : n < 10
      · simp [decReprAux, h]
      · have hd : n / 10 < n := Nat.div_lt_self (by omega) (by omega)
        simp only [decReprAux, if_neg h]
        rw [ih (n / 10) hd g₁ g₂ (by omega) (by omega)]

theorem decRepr_lt (n : Nat) (h : n < 10) : decRepr n = [Nat.digitChar n] := by
  simp [decRepr, decReprAux, h]

theorem decRepr_ge (n : Nat) (h : 10 ≤ n) :
    decRepr n = decRepr (n / 10) ++ [Nat.digitChar (n % 10)] := by
  have hd : n / 10 < n := Nat.div_lt_self (by omega) (by omega)
  have step : decReprAux (n + 1) n
      = decReprAux n (n / 10) ++ [Nat.digitChar (n % 10)] := by
    simp [decReprAux, if_neg (by omega : ¬ n < 10)]
  rw [decRepr, step,
    decReprAux_fuel (n / 10) n (n / 10 + 1) (by omega) (by omega)]
  rfl

theorem decRepr_ne_nil (n : Nat) : decRepr n ≠ [] := by
  by_cases h : n < 10
  · simp [decRepr_lt n h]
  · simp [decRepr_ge n (by omega)]

theorem digitChar_isDigit (d : Nat) (h : d < 10) :
    (Nat.digitChar d).isDigit = true := by
  interval_cases d <;> decide

theorem digitChar_toNat (d : Nat) (h : d < 10) :
    (Nat.digitChar d).toNat - 48 = d := by
  interval_cases d <;> decide

theorem digitChar_not_space (d : Nat) (h : d < 10) :
    (Nat.digitChar d).isWhitespace = false := by
  interval_cases d <;> decide

theorem digitChar_lower (d : Nat) (h : d < 10) :
    (Nat.digitChar d).toLower = Nat.digitChar d := by
  interval_cases d <;> decide

theorem accumD_append (l₁ l₂ : List Char) (a : Nat) :
    accumD (l₁ ++ l₂) a = accumD l₂ (accumD l₁ a) := by
  simp [accumD, List.foldl_append]

theorem accumD_decRepr (n : Nat) : ∀ a : Nat,
    accumD (decRepr n) a = a * 10 ^ (decRepr n).length + n := by
  induction n using Nat.strong_induction_on with
  | _ n ih =>
    intro a
    by_cases h : n < 10
    · rw [decRepr_lt n h]
      simp [accumD, digitChar_toNat n h]
      ring
    · have hd : n / 10 < n := Nat.div_lt_self (by omega) (by omega)
      rw [decRepr_ge n (by omega), accumD_append,
        ih (n / 10) hd a]
      simp only [accumD, List.foldl_cons, List.foldl_nil,
        digitChar_toNat (n % 10) (by omega), List.length_append,
        List.length_singleton]
      calc 10 * (a * 10 ^ (decRepr (n / 10)).length + n / 10) + n % 10
          = a * 10 ^ ((decRepr (n / 10)).length + 1)
            + (10 * (n / 10) + n % 10) := by ring
        _ = a * 10 ^ ((decRepr (n / 10)).length + 1) + n := by
            rw [Nat.div_add_mod]

theorem decValue_decRepr (n : Nat) : decValue (decRepr n) = n := by
  simp [decValue, accumD_decRepr]

theorem decRepr_all_digit (n : Nat) :
    ∀ c ∈ decRepr n, c.isDigit = true ∧ c.isWhitespace = false ∧
      c.toLower = c := by
  induction n using Nat.strong_induction_on with
  | _ n ih =>
    by_cases h : n < 10
    · rw [decRepr_lt n h]
      intro c hc
      rw [List.mem_singleton] at hc
      subst hc
      exact ⟨digitChar_isDigit n h, digitChar_not_space n h,
        digitChar_lower n h⟩
    · have hd : n / 10 < n := Nat.div_lt_self (by omega) (by omega)
      rw [decRepr_ge n (by omega)]
      intro c hc
      rcases List.mem_append.1 hc with hc | hc
      · exact ih (n / 10) hd c hc
      · rw [List.mem_singleton] at hc
        subst hc
        exact ⟨digitChar_isDigit _ (by omega), digitChar_not_space _ (by omega),
          digitChar_lower _ (by omega)⟩

/-!  Duration parser and humanizer (`parse_duration_ms` / `humanize_ms`,
mod.py lines 97 and 167-199).  Python's `s.strip().lower()` is modelled
on the character list (`pyStrip`, `pyLower`); the digit run accumulator
`num` (a digit string in Python, converted with `int` at each use) is
modelled as `Option Nat` — `none` for the empty run, `some v` for a
nonempty run with decimal value `v`. -/

def pyStrip (l : List Char) : List Char :=
  ((l.dropWhile Char.isWhitespace).reverse.dropWhile Char.isWhitespace).reverse

def pyLower (l : List Char) : List Char := l.map Char.toLower

/-- `_UNIT_MS` lookup: milliseconds per unit character. -/
def unitMs (c : Char) : Option Nat :=
  if c = 's' then some 1000
  else if c = 'm' then some 60000
  else if c = 'h' then some 3600000
  else if c = 'd' then some 86400000
  else if c = 'w' then some 604800000
  else none

/-- The character loop of `parse_duration_ms`, including the final
`if num: total += int(num) * 1000` and the `return total or None`. -/
def parseLoop : List Char → Nat → Option Nat → Option Nat
  | [], total, num =>
    let t := match num with
      | some v => total + v * 1000
      | none => total
    if t = 0 then none else some t
  | c :: rest, total, num =>
    if c.isDigit then
      parseLoop rest total (some (10 * num.getD 0 + (c.toNat - 48)))
    else
      match unitMs c, num with
      | some size, some v => parseLoop rest (total + v * size) none
      | _, _ =>
        if c.isWhitespace then parseLoop rest total num else none

/-- `parse_duration_ms`: `"1h30m"`, `"45m"`, `"2d"`, `"90"` (seconds) →
milliseconds; `None` on invalid input (and on a zero total). -/
def parse_duration_ms (s : String) : Option Nat :=
  if s = "" then none
  else parseLoop (pyLower (pyStrip s.data)) 0 none

/-- The unit table iterated by `humanize_ms`, largest first. -/
def hunits : List (Char × Nat) :=
  [('w', 604800000), ('d', 86400000), ('h', 3600000), ('m', 60000), ('s', 1000)]

/-- The greedy loop of `humanize_ms`: one rendered `f"{n}{unit}"` part
per unit whose size fits the remaining milliseconds. -/
def greedyParts : List (Char × Nat) → Nat → List (List Char)
  | [], _ => []
  | (u, size) :: rest, ms =>
    if size ≤ ms then (decRepr (ms / size) ++ [u]) :: greedyParts rest (ms % size)
    else greedyParts rest ms

/-- `humanize_ms`: greedy largest-unit-first decomposition,
`"".join(parts) or "0s"`. -/
def humanize_ms (ms : Nat) : String :=
  let parts := greedyParts hunits ms
  if parts.isEmpty then "0s" else ⟨parts.flatten⟩

/-- Total milliseconds named by the rendered parts of the greedy loop. -/
def partsTotal : List (Char × Nat) → Nat → Nat
  | [], _ => 0
  | (_, size) :: rest, ms =>
    if size ≤ ms then ms / size * size + partsTotal rest (ms % size)
    else partsTotal rest ms

/-- Milliseconds left over after the greedy loop. -/
def remAfter : List (Char × Nat) → Nat → Nat
  | [], ms => ms
  | (_, size) :: rest, ms =>
    if size ≤ ms then remAfter rest (ms % size) else remAfter rest ms

theorem parseLoop_digits_some (dl : List Char)
    (hdl : ∀ c ∈ dl, c.isDigit = true) :
    ∀ (l : List Char) (total v : Nat),
      parseLoop (dl ++ l) total (some v) = parseLoop l total (some (accumD dl v)) := by
  induction dl with
  | nil => intro l total v; simp [accumD]
  | cons c rest ih =>
    intro l total v
    have hc : c.isDigit = true := hdl c (by simp)
    have hrest : ∀ x ∈ rest, x.isDigit = true := fun x hx => hdl x (by simp [hx])
    simp only [List.cons_append, parseLoop, hc, if_true, Option.getD_some,
      List.append_eq]
    rw [ih hrest]
    rfl

theorem parseLoop_decRepr (n : Nat) (l : List Char) (total : Nat) :
    parseLoop (decRepr n ++ l) total none = parseLoop l total (some n) := by
  cases hr : decRepr n with
  | nil => exact absurd hr (decRepr_ne_nil n)
  | cons c rest =>
    have hall := decRepr_all_digit n
    rw [hr] at hall
    have hc : c.isDigit = true := (hall c (by simp)).1
    have hrest : ∀ x ∈ rest, x.isDigit = true := fun x hx => (hall x (by simp [hx])).1
    have hacc : accumD rest (10 * 0 + (c.toNat - 48)) = n := by
      have hv := decValue_decRepr n
      rw [decValue, hr] at hv
      simpa [accumD] using hv
    simp only [List.cons_append, parseLoop, hc, if_true, Option.getD_none,
      List.append_eq]
    rw [parseLoop_digits_some rest hrest, hacc]

theorem parseLoop_unit (u : Char) (sz : Nat) (hu : unitMs u = some sz)
    (hd : u.isDigit = false) (l : List Char) (total v : Nat) :
    parseLoop (u :: l) total (some v) = parseLoop l (total + v * sz) none := by
  simp [parseLoop, hd, hu]

theorem parseLoop_greedy (units : List (Char × Nat))
    (hwf : ∀ p ∈ units, unitMs p.1 = some p.2 ∧ p.1.isDigit = false) :
    ∀ (ms total : Nat) (rest : List Char),
      parseLoop ((greedyParts units ms).flatten ++ rest) total none
        = parseLoop rest (total + partsTotal units ms) none := by
  induction units with
  | nil => intro ms total rest; simp [greedyParts, partsTotal]
  | cons p us ih =>
    obtain ⟨u, sz⟩ := p
    have hu := hwf (u, sz) (by simp)
    have hus : ∀ q ∈ us, unitMs q.1 = some q.2 ∧ q.1.isDigit = false :=
      fun q hq => hwf q (by simp [hq])
    intro ms total rest
    by_cases h : sz ≤ ms
    · simp only [greedyParts, if_pos h, partsTotal, List.flatten_cons,
        List.append_assoc, List.singleton_append, List.cons_append,
        List.append_eq]
      rw [parseLoop_decRepr, parseLoop_unit u sz hu.1 hu.2]
      simp only [List.nil_append]
      rw [ih hus (ms % sz) (total + ms / sz * sz) rest, Nat.add_assoc]
    · simp only [greedyParts, if_neg h, partsTotal]
      exact ih hus ms total rest

theorem partsTotal_add_remAfter (units : List (Char × Nat)) :
    ∀ ms, partsTotal units ms + remAfter units ms = ms := by
  induction units with
  | nil => intro ms; simp [partsTotal, remAfter]
  | cons p us ih =>
    obtain ⟨u, sz⟩ := p
    intro ms
    by_cases h : sz ≤ ms
    · simp only [partsTotal, remAfter, if_pos h]
      rw [Nat.add_assoc, ih (ms % sz), Nat.div_add_mod']
    · simp only [partsTotal, remAfter, if_neg h]
      exact ih ms

theorem dvd_partsTotal (units : List (Char × Nat))
    (h : ∀ p ∈ units, 1000 ∣ p.2) : ∀ ms, 1000 ∣ partsTotal units ms := by
  induction units with
  | nil => intro ms; simp [partsTotal]
  | cons p us ih =>
    obtain ⟨u, sz⟩ := p
    have hsz : 1000 ∣ sz := h (u, sz) (by simp)
    have hus : ∀ q ∈ us, 1000 ∣ q.2 := fun q hq => h q (by simp [hq])
    intro ms
    by_cases hle : sz ≤ ms
    · simp only [partsTotal, if_pos hle]
      exact Nat.dvd_add (Dvd.dvd.mul_left hsz _) (ih hus (ms % sz))
    · simp only [partsTotal, if_neg hle]
      exact ih hus ms

theorem dvd_remAfter (units : List (Char × Nat))
    (h : ∀ p ∈ units, 1000 ∣ p.2) :
    ∀ ms, 1000 ∣ ms → 1000 ∣ remAfter units ms := by
  induction units with
  | nil => intro ms hms; simpa [remAfter] using hms
  | cons p us ih =>
    obtain ⟨u, sz⟩ := p
    have hsz : 1000 ∣ sz := h (u, sz) (by simp)
    have hus : ∀ q ∈ us, 1000 ∣ q.2 := fun q hq => h q (by simp [hq])
    intro ms hms
    by_cases hle : sz ≤ ms
    · simp only [remAfter, if_pos hle]
      exact ih hus (ms % sz) ((Nat.dvd_mod_iff hsz).2 hms)
    · simp only [remAfter, if_neg hle]
      exact ih hus ms hms

theorem remAfter_append (l₁ l₂ : List (Char × Nat)) :
    ∀ ms, remAfter (l₁ ++ l₂) ms = remAfter l₂ (remAfter l₁ ms) := by
  induction l₁ with
  | nil => intro ms; simp [remAfter]
  | cons p us ih =>
    obtain ⟨u, sz⟩ := p
    intro ms
    by_cases h : sz ≤ ms <;> simp [remAfter, h, ih]

theorem remAfter_hunits_lt (ms : Nat) : remAfter hunits ms < 1000 := by
  have hsplit : hunits = [('w', 604800000), ('d', 86400000), ('h', 3600000),
      ('m', 60000)] ++ [('s', 1000)] := rfl
  rw [hsplit, remAfter_append]
  generalize remAfter [('w', 604800000), ('d', 86400000), ('h', 3600000),
    ('m', 60000)] ms = r
  by_cases h : 1000 ≤ r
  · simp only [remAfter, if_pos h]
    exact Nat.mod_lt _ (by omega)
  · simp only [remAfter, if_neg h]
    omega

theorem partsTotal_of_greedy_nil (units : List (Char × Nat)) :
    ∀ ms, greedyParts units ms = [] → partsTotal units ms = 0 := by
  induction units with
  | nil => intro ms _; rfl
  | cons p us ih =>
    obtain ⟨u, sz⟩ := p
    intro ms hnil
    by_cases h : sz ≤ ms
    · rw [greedyParts, if_pos h] at hnil
      cases hnil
    · rw [greedyParts, if_neg h] at hnil
      rw [partsTotal, if_neg h]
      exact ih ms hnil

theorem greedy_chars (units : List (Char × Nat))
    (h : ∀ p ∈ units, p.1.isWhitespace = false ∧ p.1.toLower = p.1) :
    ∀ ms c, c ∈ (greedyParts units ms).flatten →
      c.isWhitespace = false ∧ c.toLower = c := by
  induction units with
  | nil => intro ms c hc; simp [greedyParts] at hc
  | cons p us ih =>
    obtain ⟨u, sz⟩ := p
    have hu := h (u, sz) (by simp)
    have hus : ∀ q ∈ us, q.1.isWhitespace = false ∧ q.1.toLower = q.1 :=
      fun q hq => h q (by simp [hq])
    intro ms c hc
    by_cases hle : sz ≤ ms
    · rw [greedyParts, if_pos hle, List.flatten_cons] at hc
      rcases List.mem_append.1 hc with hc | hc
      · rcases List.mem_append.1 hc with hc | hc
        · have := decRepr_all_digit (ms / sz) c hc
          exact ⟨this.2.1, this.2.2⟩
        · rw [List.mem_singleton] at hc
          subst hc
          exact hu
      · exact ih hus (ms % sz) c hc
    · rw [greedyParts, if_neg hle] at hc
      exact ih hus ms c hc

theorem dropWhile_all_false (p : Char → Bool) (l : List Char)
    (h : ∀ c ∈ l, p c = false) : l.dropWhile p = l := by
  cases l with
  | nil => rfl
  | cons c rest => simp [List.dropWhile, h c (by simp)]

theorem pyStrip_id (l : List Char) (h : ∀ c ∈ l, c.isWhitespace = false) :
    pyStrip l = l := by
  rw [pyStrip, dropWhile_all_false _ l h,
    dropWhile_all_false _ _ (fun c hc => h c (List.mem_reverse.1 hc)),
    List.reverse_reverse]

theorem pyLower_id (l : List Char) : (∀ c ∈ l, c.toLower = c) → pyLower l = l := by
  induction l with
  | nil => intro _; rfl
  | cons c rest ih =>
    intro h
    simp only [pyLower, List.map_cons]
    rw [h c (by simp)]
    have hr := ih (fun x hx => h x (by simp [hx]))
    simp only [pyLower] at hr
    rw [hr]

theorem hunits_wf : ∀ p ∈ hunits, unitMs p.1 = some p.2 ∧ p.1.isDigit = false
    ∧ p.1.isWhitespace = false ∧ p.1.toLower = p.1 ∧ 1000 ∣ p.2 ∧ 1000 ≤ p.2 := by
  decide

theorem humanize_nonempty (x : Nat) (hp : (greedyParts hunits x).isEmpty = false) :
    humanize_ms x = ⟨(greedyParts hunits x).flatten⟩ := by
  simp [humanize_ms, hp]

theorem parse_greedy_flatten (x : Nat) :
    parseLoop ((greedyParts hunits x).flatten) 0 none
      = parseLoop [] (0 + partsTotal hunits x) none := by
  have hgl := parseLoop_greedy hunits
    (fun p hp => ⟨(hunits_wf p hp).1, (hunits_wf p hp).2.1⟩) x 0 []
  rwa [List.append_nil] at hgl

/-- `parse(humanize(x)) == x` for positive exact multiples of 1000 ms. -/
theorem parse_humanize_roundtrip (x : Nat) (hx : 0 < x) (hdvd : 1000 ∣ x) :
    parse_duration_ms (humanize_ms x) = some x := by
  have hrem_lt := remAfter_hunits_lt x
  have hrem_dvd := dvd_remAfter hunits
    (fun p hp => (hunits_wf p hp).2.2.2.2.1) x hdvd
  have hrem0 : remAfter hunits x = 0 := by omega
  have hsum := partsTotal_add_remAfter hunits x
  have htot : partsTotal hunits x = x := by omega
  have hne : greedyParts hunits x ≠ [] := by
    intro hcon
    have := partsTotal_of_greedy_nil hunits x hcon
    omega
  have hp : (greedyParts hunits x).isEmpty = false := by
    cases hg : greedyParts hunits x with
    | nil => exact absurd hg hne
    | cons a l => rfl
  have hgl := parse_greedy_flatten x
  have hfl : (greedyParts hunits x).flatten ≠ [] := by
    intro hcon
    rw [hcon] at hgl
    have h1 : parseLoop [] 0 none = none := by simp [parseLoop]
    have h2 : parseLoop [] (0 + partsTotal hunits x) none = some x := by
      simp only [parseLoop, Nat.zero_add, htot]
      rw [if_neg (by omega)]
    rw [h1, h2] at hgl
    cases hgl
  have hchars : ∀ c ∈ (greedyParts hunits x).flatten,
      c.isWhitespace = false ∧ c.toLower = c :=
    greedy_chars hunits
      (fun p hp => ⟨(hunits_wf p hp).2.2.1, (hunits_wf p hp).2.2.2.1⟩) x
  rw [humanize_nonempty x hp, parse_duration_ms]
  rw [if_neg (fun hcon => hfl (congrArg String.data hcon))]
  have hdata : (⟨(greedyParts hunits x).flatten⟩ : String).data
      = (greedyParts hunits x).flatten := rfl
  rw [hdata, pyStrip_id _ (fun c hc => (hchars c hc).1),
    pyLower_id _ (fun c hc => (hchars c hc).2), hgl]
  simp only [parseLoop, Nat.zero_add, htot]
  rw [if_neg (by omega)]

theorem parseLoop_pos (l : List Char) : ∀ (total : Nat) (num : Option Nat)
    (t : Nat), parseLoop l total num = some t → 0 < t := by
  induction l with
  | nil =>
    intro total num t h
    simp only [parseLoop] at h
    split at h
    · cases h
    · injection h with h
      omega
  | cons c rest ih =>
    intro total num t h
    simp only [parseLoop] at h
    split at h
    · exact ih _ _ _ h
    · split at h
      · exact ih _ _ _ h
      · split at h
        · exact ih _ _ _ h
        · cases h

theorem unitMs_dvd (c : Char) (sz : Nat) (h : unitMs c = some sz) :
    1000 ∣ sz := by
  unfold unitMs at h
  split_ifs at h <;> injection h with h <;> omega

theorem parseLoop_dvd (l : List Char) : ∀ (total : Nat) (num : Option Nat)
    (t : Nat), 1000 ∣ total → parseLoop l total num = some t → 1000 ∣ t := by
  induction l with
  | nil =>
    intro total num t hdvd h
    cases num with
    | none =>
      simp only [parseLoop] at h
      split at h
      · cases h
      · injection h with h
        omega
    | some v =>
      simp only [parseLoop] at h
      split at h
      · cases h
      · injection h with h
        have hv : (1000 : Nat) ∣ v * 1000 := ⟨v, Nat.mul_comm v 1000⟩
        omega
  | cons c rest ih =>
    intro total num t hdvd h
    by_cases hcd : c.isDigit = true
    · simp only [parseLoop, hcd, if_true] at h
      exact ih _ _ _ hdvd h
    · cases hc : unitMs c with
      | some size =>
        cases num with
        | some v =>
          simp only [parseLoop, hcd, hc] at h
          exact ih _ _ _
            (Nat.dvd_add hdvd (Dvd.dvd.mul_left (unitMs_dvd c size hc) v)) h
        | none =>
          by_cases hw : c.isWhitespace = true
          · simp only [parseLoop, hcd, hc, hw, if_true] at h
            exact ih _ _ _ hdvd h
          · simp only [parseLoop, hcd, hc, hw] at h
            cases h
      | none =>
        by_cases hw : c.isWhitespace = true
        · simp only [parseLoop, hcd, hc, hw, if_true] at h
          exact ih _ _ _ hdvd h
        · simp only [parseLoop, hcd, hc, hw] at h
          cases h

theorem parse_pos (s : String) (x : Nat)
    (h : parse_duration_ms s = some x) : 0 < x := by
  rw [parse_duration_ms] at h
  split at h
  · cases h
  · exact parseLoop_pos _ _ _ _ h

theorem parse_dvd (s : String) (x : Nat)
    (h : parse_duration_ms s = some x) : 1000 ∣ x := by
  rw [parse_duration_ms] at h
  split at h
  · cases h
  · exact parseLoop_dvd _ _ _ _ ⟨0, rfl⟩ h

theorem parse_humanize_eq_partsTotal (ms x : Nat)
    (h : parse_duration_ms (humanize_ms ms) = some x) :
    x = partsTotal hunits ms := by
  cases hp : (greedyParts hunits ms).isEmpty with
  | true =>
    have hs : humanize_ms ms = "0s" := by simp [humanize_ms, hp]
    rw [hs] at h
    have hz : parse_duration_ms "0s" = none := by decide
    rw [hz] at h
    cases h
  | false =>
    rw [humanize_nonempty ms hp] at h
    by_cases hfl : (greedyParts hunits ms).flatten = []
    · rw [hfl] at h
      have hz : parse_duration_ms ⟨[]⟩ = none := by decide
      rw [hz] at h
      cases h
    · have hchars : ∀ c ∈ (greedyParts hunits ms).flatten,
          c.isWhitespace = false ∧ c.toLower = c :=
        greedy_chars hunits
          (fun p hp2 => ⟨(hunits_wf p hp2).2.2.1, (hunits_wf p hp2).2.2.2.1⟩) ms
      rw [parse_duration_ms,
        if_neg (fun hcon => hfl (congrArg String.data hcon))] at h
      have hdata : (⟨(greedyParts hunits ms).flatten⟩ : String).data
          = (greedyParts hunits ms).flatten := rfl
      rw [hdata, pyStrip_id _ (fun c hc => (hchars c hc).1),
        pyLower_id _ (fun c hc => (hchars c hc).2),
        parse_greedy_flatten ms] at h
      simp only [parseLoop, Nat.zero_add] at h
      split at h
      · cases h
      · injection h with h
        omega

theorem greedyParts_drop_sub1000 (units : List (Char × Nat))
    (hwf : ∀ p ∈ units, 1000 ∣ p.2 ∧ 1000 ≤ p.2) :
    ∀ q r, r < 1000 →
      greedyParts units (1000 * q + r) = greedyParts units (1000 * q) := by
  induction units with
  | nil => intro q r _; rfl
  | cons p us ih =>
    obtain ⟨u, sz⟩ := p
    obtain ⟨hdvd, hge⟩ := hwf (u, sz) (by simp)
    have hus : ∀ p ∈ us, 1000 ∣ p.2 ∧ 1000 ≤ p.2 :=
      fun p hp => hwf p (by simp [hp])
    obtain ⟨k, hk⟩ := hdvd
    replace hk : sz = 1000 * k := hk
    replace hge : 1000 ≤ sz := hge
    intro q r hr
    by_cases h : sz ≤ 1000 * q
    · have h' : sz ≤ 1000 * q + r := by omega
      have hbd : 1000 ∣ (1000 * q) % sz := by
        rw [Nat.dvd_mod_iff ⟨k, hk⟩]
        exact ⟨q, rfl⟩
      obtain ⟨b', hb'⟩ := hbd
      have hblt : (1000 * q) % sz < sz := Nat.mod_lt _ (by omega)
      have hdm := Nat.div_add_mod (1000 * q) sz
      have hrepr : 1000 * q + r
          = sz * ((1000 * q) / sz) + ((1000 * q) % sz + r) := by omega
      have hdiv : (1000 * q + r) / sz = (1000 * q) / sz := by
        rw [hrepr, Nat.mul_add_div (by omega : 0 < sz),
          Nat.div_eq_of_lt (show (1000 * q) % sz + r < sz by omega)]
        omega
      have hmod : (1000 * q + r) % sz = (1000 * q) % sz + r := by
        rw [hrepr, Nat.mul_add_mod]
        exact Nat.mod_eq_of_lt (by omega)
      rw [greedyParts, greedyParts, if_pos h, if_pos h', hdiv, hmod, hb',
        ih hus b' r hr, ← hb']
    · have h' : ¬ sz ≤ 1000 * q + r := by omega
      rw [greedyParts, greedyParts, if_neg h, if_neg h']
      exact ih hus q r hr

theorem humanize_trunc (ms : Nat) :
    humanize_ms ms = humanize_ms (1000 * (ms / 1000)) := by
  have hparts : greedyParts hunits ms = greedyParts hunits (1000 * (ms / 1000)) := by
    conv_lhs => rw [show ms = 1000 * (ms / 1000) + ms % 1000 from by omega]
    exact greedyParts_drop_sub1000 hunits
      (fun p hp => ⟨(hunits_wf p hp).2.2.2.2.1, (hunits_wf p hp).2.2.2.2.2⟩)
      (ms / 1000) (ms % 1000) (by omega)
  simp [humanize_ms, hparts]

/-!  Per-guild ledger state (`GuildConfig.modules`), mod.py lines 24-80
and 388-468.  A fresh guild config is created with `modules = {}`
(`get_guild_cfg`); the ledger owns the four sub-keys `"case_seq"`,
`"modlog_channel_id"`, `"case_index"` and `"warns"`.  Values that the
code would crash on in Python (e.g. a non-string under `"case_seq"`)
never occur and are mapped to the same result as an absent key. -/

/-- `int(mods.get("case_seq", 0))`: the stored counter, `0` if unset. -/
def case_seq_val (mods : List (String × JVal)) : Nat :=
  match jget mods "case_seq" with
  | some (.jstr s) => decValue s.data
  | _ => 0

/-- `next_case_number` (mod.py 56-62): increment the stored counter by
one (stored back as a decimal string) and return the new value. -/
def next_case_number (mods : List (String × JVal)) :
    Nat × List (String × JVal) :=
  let n := case_seq_val mods + 1
  (n, jset mods "case_seq" (.jstr ⟨decRepr n⟩))

/-- `get_modlog_channel_id` (mod.py 44-46): `int(raw) if raw else None`;
an absent key or the empty string (both falsy) give `none`. -/
def get_modlog_channel_id (mods : List (String × JVal)) : Option Nat :=
  match jget mods "modlog_channel_id" with
  | some (.jstr s) => if s = "" then none else some (decValue s.data)
  | _ => none

/-- `set_modlog_channel_id` (mod.py 49-53): store `str(channel_id)`. -/
def set_modlog_channel_id (mods : List (String × JVal))
    (channel_id : Nat) : List (String × JVal) :=
  jset mods "modlog_channel_id" (.jstr ⟨decRepr channel_id⟩)

/-- `mods.get("case_index") or {}` (mod.py 72-73). -/
def case_index_obj (mods : List (String × JVal)) : List (String × JVal) :=
  match jget mods "case_index" with
  | some (.jobj o) => o
  | _ => []

/-- `_set_case_index_entry` (mod.py 71-80): write the
`{c, m[, u]}` entry under `str(case_no)` inside `"case_index"`. -/
def set_case_index_entry (mods : List (String × JVal))
    (case_no channel_id message_id : Nat) (user_id : Option Nat) :
    List (String × JVal) :=
  let idx := case_index_obj mods
  let entry := [("c", JVal.jstr ⟨decRepr channel_id⟩),
                ("m", JVal.jstr ⟨decRepr message_id⟩)]
  let entry := match user_id with
    | some u => entry ++ [("u", JVal.jstr ⟨decRepr u⟩)]
    | none => entry
  jset mods "case_index" (.jobj (jset idx ⟨decRepr case_no⟩ (.jobj entry)))

/-- `cfg.modules.get("warns", {})` as a key/value document. -/
def warns_obj (mods : List (String × JVal)) : List (String × JVal) :=
  match jget mods "warns" with
  | some (.jobj o) => o
  | _ => []

/-- `warns.get(str(member.id), [])`: the subject's warning list. -/
def list_warnings (mods : List (String × JVal)) (uid : String) : List JVal :=
  match jget (warns_obj mods) uid with
  | some (.jarr l) => l
  | _ => []

/-- One stored warning record (mod.py 395-399). -/
def warn_entry (reason moderator timestamp : String) : JVal :=
  .jobj [("reason", .jstr reason), ("moderator", .jstr moderator),
         ("timestamp", .jstr timestamp)]

/-- The storage step of the `warn` command (mod.py 388-405): append a
warning record to the subject's list inside `"warns"`. -/
def append_warning (mods : List (String × JVal)) (uid : String)
    (reason moderator timestamp : String) : List (String × JVal) :=
  let warns := warns_obj mods
  let user_warns := match jget warns uid with
    | some (.jarr l) => l
    | _ => []
  let user_warns := user_warns ++ [warn_entry reason moderator timestamp]
  jset mods "warns" (.jobj (jset warns uid (.jarr user_warns)))

/-- The `clearwarns` command's storage step (mod.py 456-466): pop the
subject's whole list if present; the Bool records whether anything was
removed (the command answers "no warnings" otherwise and writes
nothing). -/
def clear_warnings (mods : List (String × JVal)) (uid : String) :
    Bool × List (String × JVal) :=
  let warns_map := warns_obj mods
  if (jget warns_map uid).isSome then
    (true, jset mods "warns" (.jobj (jdel warns_map uid)))
  else
    (false, mods)

/-- `user_warns[-1]["reason"] = new_reason` on one stored record. -/
def set_warn_reason (w : JVal) (new_reason : String) : JVal :=
  match w with
  | .jobj o => .jobj (jset o "reason" (.jstr new_reason))
  | w => w

/-- The warning patch step of the `reason` command (mod.py 713-726):
if the subject has a stored warning list and it is nonempty, overwrite
the reason of the last (most recently appended) record and commit; the
Bool records whether a patch was written. -/
def patch_last_warning_reason (mods : List (String × JVal)) (uid : String)
    (new_reason : String) : Bool × List (String × JVal) :=
  let warns := warns_obj mods
  match jget warns uid with
  | some (.jarr user_warns) =>
    match user_warns.getLast? with
    | some last =>
      (true, jset mods "warns" (.jobj (jset warns uid
        (.jarr (user_warns.dropLast ++ [set_warn_reason last new_reason])))))
    | none => (false, mods)
  | _ => (false, mods)

/-- `allocSeq N mods`: the case numbers returned by `N` successive
`next_case_number` allocations (serialized access). -/
def allocSeq : Nat → List (String × JVal) → List Nat
  | 0, _ => []
  | n + 1, mods =>
    let r := next_case_number mods
    r.1 :: allocSeq n r.2

/-!  `_log_case` (mod.py 254-330; the second definition shadows the
first).  Only ledger-relevant effects are modelled: the returned value
(`none` for Python's implicit `None`), the channel id the notice embed
was sent to (if any was sent at all), and the resulting `modules`
document.  External chat-platform behaviour is abstracted into
`LogEnv`: whether the configured mod-log channel resolves
(`get_channel` / `fetch_channel`), the invoking channel's id, the id
the platform assigns to the sent message, and the subject id. -/

structure LogEnv where
  resolvable : Bool
  ctxChannelId : Nat
  messageId : Nat
  targetId : Option Nat

structure LogResult where
  caseNo : Option Nat
  sentTo : Option Nat
  mods : List (String × JVal)

/-- Control flow of `_log_case`: allocate the case number, then — only
inside `if modlog_id:` (falsy for an unset id, an empty string, or 0) —
send the embed to the resolved channel or fall back to the invoking
channel, index the case, and return the case number. -/
def log_case (mods0 : List (String × JVal)) (env : LogEnv) : LogResult :=
  let r := next_case_number mods0
  let case_no := r.1
  let mods1 := r.2
  match get_modlog_channel_id mods1 with
  | none => ⟨none, none, mods1⟩
  | some mid =>
    if mid = 0 then ⟨none, none, mods1⟩
    else
      let channel : Option Nat := if env.resolvable then some mid else none
      let sendChannel := channel.getD env.ctxChannelId
      let mods2 := set_case_index_entry mods1 case_no sendChannel
        env.messageId env.targetId
      ⟨some case_no, some sendChannel, mods2⟩

/-!  The `duration` command (mod.py 736-853).  The notice embed is
modelled by its author line and its named fields; colour and timestamp
are presentation-only and omitted.  `str.split("|")` is modelled by
`pySplit` on the character list. -/

structure EField where
  name : String
  value : String
  inl : Bool

structure MsgEmbed where
  authorName : String
  fields : List EField

/-- Python `str.split(sep)` for a one-character separator. -/
def pySplit (sep : Char) : List Char → List (List Char)
  | [] => [[]]
  | c :: rest =>
    match pySplit sep rest with
    | [] => [[]]
    | cur :: parts =>
      if c = sep then [] :: cur :: parts else (c :: cur) :: parts

/-- `p.strip().lower()` on a character list. -/
def pyStripLower (l : List Char) : List Char := pyLower (pyStrip l)

/-- Outcomes of the `duration` command, one per `return` site. -/
inductive DOutcome where
  | invalidDuration
  | durationTooLong
  | caseNotFound
  | channelInaccessible
  | messageUnavailable
  | noEmbed
  | timeoutDenied
  | editFailed
  | updatedTimeout
  | updatedNoMember
  | updatedPlain
deriving DecidableEq

/-- External collaborators of the `duration` command: whether the log
channel from the index entry resolves, the fetched message's embed list
(`none` when `fetch_message` raises), the uid the `re.search` fallback
would extract from the embed's User field (the regexes themselves are
not formalized; this input is only consulted when the index entry lacks
`"u"`), which member ids resolve in the guild, and whether the
`member.timeout` and `message.edit` calls succeed. -/
structure DurEnv where
  channelOk : Bool
  message : Option (List MsgEmbed)
  userFieldUid : Option Nat
  memberOf : Nat → Bool
  timeoutOk : Bool
  editOk : Bool

/-- Effects of one `duration` invocation: the outcome, the
`member.timeout` call made (subject id and new duration in ms), if any,
and the embed written back by `message.edit`, if the edit happened. -/
structure DurResult where
  outcome : DOutcome
  timeoutCall : Option (Nat × Nat)
  editedEmbed : Option MsgEmbed

/-- 28 days in milliseconds, the `max_ms` cap of `duration` and `mute`. -/
def max_ms : Nat := 28 * 24 * 60 * 60 * 1000

/-- `duration_cmd` (mod.py 739-853): parse and cap the new duration,
look the case up in the index, fetch the notice, recover the action
token from the pipe-delimited author line, update the Duration field,
and re-apply the timeout only for mute/timeout cases. -/
def duration_cmd (mods : List (String × JVal)) (case_no : Nat)
    (duration : String) (env : DurEnv) : DurResult :=
  match parse_duration_ms duration with
  | none => ⟨.invalidDuration, none, none⟩
  | some ms =>
    if ms = 0 then ⟨.invalidDuration, none, none⟩
    else if max_ms < ms then ⟨.durationTooLong, none, none⟩
    else
      match jget (case_index_obj mods) ⟨decRepr case_no⟩ with
      | none => ⟨.caseNotFound, none, none⟩
      | some (.jobj []) => ⟨.caseNotFound, none, none⟩
      | some entryv =>
        let entry := match entryv with
          | .jobj o => o
          | _ => []
        let stored_uid : Option Nat := match jget entry "u" with
          | some (.jstr s) => some (decValue s.data)
          | _ => none
        if ¬ env.channelOk then ⟨.channelInaccessible, none, none⟩
        else
          match env.message with
          | none => ⟨.messageUnavailable, none, none⟩
          | some embeds =>
            match embeds with
            | [] => ⟨.noEmbed, none, none⟩
            | emb :: _ =>
              let parts := (pySplit '|' emb.authorName.data).map pyStripLower
              let action_name := parts.getD 1 []
              let is_timeout_case : Bool :=
                action_name == "mute".data || action_name == "timeout".data
              let uid := match stored_uid with
                | some u => some u
                | none => env.userFieldUid
              let member_for_timeout : Option Nat :=
                if is_timeout_case then
                  match uid with
                  | some u =>
                    if u = 0 then none
                    else if env.memberOf u then some u else none
                  | none => none
                else none
              let human := humanize_ms ms
              let idx_field := emb.fields.findIdx?
                (fun f => pyStripLower f.name.data == "duration".data)
              let newFields := match idx_field with
                | some i => emb.fields.set i ⟨"Duration", human, true⟩
                | none => emb.fields ++ [⟨"Duration", human, true⟩]
              let edited : MsgEmbed := ⟨emb.authorName, newFields⟩
              let tcall : Option (Nat × Nat) :=
                match member_for_timeout with
                | some u => some (u, ms)
                | none => none
              if tcall.isSome && !env.timeoutOk then
                ⟨.timeoutDenied, tcall, none⟩
              else if ¬ env.editOk then ⟨.editFailed, tcall, none⟩
              else
                match member_for_timeout with
                | some _ => ⟨.updatedTimeout, tcall, some edited⟩
                | none =>
                  if is_timeout_case then ⟨.updatedNoMember, none, some edited⟩
                  else ⟨.updatedPlain, none, some edited⟩

/-- The counter key either holds the canonical decimal string for `k`,
or is unset and `k = 0` (the fresh-record state). -/
def seq_canonical (mods : List (String × JVal)) (k : Nat) : Prop :=
  jget mods "case_seq" = some (.jstr ⟨decRepr k⟩) ∨
  (jget mods "case_seq" = none ∧ k = 0)

theorem next_canonical (mods : List (String × JVal)) (k : Nat)
    (h : seq_canonical mods k) :
    (next_case_number mods).1 = k + 1 ∧
      seq_canonical (next_case_number mods).2 (k + 1) := by
  have hval : case_seq_val mods = k := by
    rcases h with h | ⟨h, rfl⟩
    · rw [case_seq_val, h]
      exact decValue_decRepr k
    · rw [case_seq_val, h]
  refine ⟨by simp [next_case_number, hval], Or.inl ?_⟩
  show jget (jset mods "case_seq" (.jstr ⟨decRepr (case_seq_val mods + 1)⟩))
      "case_seq" = _
  rw [jget_jset_eq, hval]

theorem allocSeq_canonical (N : Nat) :
    ∀ (mods : List (String × JVal)) (k : Nat), seq_canonical mods k →
      allocSeq N mods = List.range' (k + 1) N := by
  induction N with
  | zero => intro mods k _; rfl
  | succ n ih =>
    intro mods k h
    obtain ⟨h1, h2⟩ := next_canonical mods k h
    rw [List.range'_succ]
    show (next_case_number mods).1 :: allocSeq n (next_case_number mods).2 = _
    rw [h1, ih _ _ h2]

theorem fresh_canonical : seq_canonical [] 0 := Or.inr ⟨rfl, rfl⟩

theorem case_seq_val_jset (mods : List (String × JVal)) (v : Nat) :
    case_seq_val (jset mods "case_seq" (.jstr ⟨decRepr v⟩)) = v := by
  unfold case_seq_val
  rw [jget_jset_eq]
  exact decValue_decRepr v

/-- Claim C2: starting from a fresh community record (caseSequence 0),
N serialized `next_case_number` allocations return exactly the case
numbers 1, 2, ..., N in order, with no duplicates and no gaps, and each
allocation increments the stored counter by exactly 1 and returns the
new value. -/
theorem claim_C2_case_sequencer :
    (∀ N : Nat, allocSeq N [] = List.range' 1 N) ∧
    (∀ N : Nat, (allocSeq N []).Nodup) ∧
    (∀ N i : Nat, i ∈ allocSeq N [] ↔ 1 ≤ i ∧ i ≤ N) ∧
    (∀ mods : List (String × JVal),
      (next_case_number mods).1 = case_seq_val mods + 1 ∧
      case_seq_val (next_case_number mods).2 = case_seq_val mods + 1) := by
  have halloc : ∀ N : Nat, allocSeq N [] = List.range' 1 N :=
    fun N => allocSeq_canonical N [] 0 fresh_canonical
  refine ⟨halloc, fun N => ?_, fun N i => ?_, fun mods => ⟨rfl, ?_⟩⟩
  · rw [halloc N]
    exact List.nodup_range' 1 N
  · rw [halloc N, List.mem_range'_1]
    omega
  · exact case_seq_val_jset mods (case_seq_val mods + 1)

/-- Claim C3: for every positive exact multiple of 1000 ms,
`parse(humanize(x)) == x`, and `parse` followed by `humanize` is
idempotent: any successful parse result round-trips through
`humanize` unchanged, so repeated `parse∘humanize` is stable after the
first application. -/
theorem claim_C3_roundtrip :
    (∀ x : Nat, 0 < x → 1000 ∣ x →
      parse_duration_ms (humanize_ms x) = some x) ∧
    (∀ (s : String) (x : Nat), parse_duration_ms s = some x →
      parse_duration_ms (humanize_ms x) = some x) :=
  ⟨parse_humanize_roundtrip,
   fun s x h => parse_humanize_roundtrip x (parse_pos s x h) (parse_dvd s x h)⟩

theorem claim_C3_roundtrip_witness :
    (0 < 5400000 ∧ (1000 : Nat) ∣ 5400000 ∧
      parse_duration_ms (humanize_ms 5400000) = some 5400000) ∧
    (parse_duration_ms "1h30m" = some 5400000 ∧
      parse_duration_ms (humanize_ms 5400000) = some 5400000) :=
  ⟨⟨by decide, by decide, claim_C3_roundtrip.1 5400000 (by decide) (by decide)⟩,
   ⟨by decide, claim_C3_roundtrip.2 "1h30m" 5400000 (by decide)⟩⟩

/-- Claim C4: the duration parser rejects `""`, `"abc"`, `"5x"`, `"0"`
and `"0s"` (zero rejected), parses `"1h30m"` to 5,400,000 ms and
`"90"` to 90,000 ms, and in general reads a bare decimal digit run as
seconds. -/
theorem claim_C4_parser_values :
    parse_duration_ms "" = none ∧
    parse_duration_ms "abc" = none ∧
    parse_duration_ms "5x" = none ∧
    parse_duration_ms "0" = none ∧
    parse_duration_ms "0s" = none ∧
    parse_duration_ms "1h30m" = some 5400000 ∧
    parse_duration_ms "90" = some 90000 ∧
    (∀ n : Nat, 0 < n → parse_duration_ms ⟨decRepr n⟩ = some (n * 1000)) := by
  refine ⟨by decide, by decide, by decide, by decide, by decide, by decide,
    by decide, fun n hn => ?_⟩
  have hne : (⟨decRepr n⟩ : String) ≠ "" :=
    fun hcon => decRepr_ne_nil n (congrArg String.data hcon)
  rw [parse_duration_ms, if_neg hne]
  have hdata : (⟨decRepr n⟩ : String).data = decRepr n := rfl
  have hall := decRepr_all_digit n
  rw [hdata, pyStrip_id _ (fun c hc => (hall c hc).2.1),
    pyLower_id _ (fun c hc => (hall c hc).2.2)]
  have hd := parseLoop_decRepr n [] 0
  rw [List.append_nil] at hd
  rw [hd]
  simp only [parseLoop, Nat.zero_add]
  rw [if_neg (by omega)]

theorem claim_C4_parser_values_witness :
    0 < 90 ∧ parse_duration_ms ⟨decRepr 90⟩ = some (90 * 1000) :=
  ⟨by decide, claim_C4_parser_values.2.2.2.2.2.2.2 90 (by decide)⟩

/-- Claim C10: `humanize_ms` silently truncates sub-second remainders:
for every ms that is not an exact multiple of 1000 it renders the same
text as the largest multiple of 1000 below it, and any successful
parse of that text is strictly smaller than ms. -/
theorem claim_C10_humanize_truncates :
    ∀ ms : Nat, ¬ (1000 ∣ ms) →
      humanize_ms ms = humanize_ms (1000 * (ms / 1000)) ∧
      (∀ x, parse_duration_ms (humanize_ms ms) = some x → x < ms) := by
  intro ms hnd
  refine ⟨humanize_trunc ms, fun x h => ?_⟩
  have hx := parse_humanize_eq_partsTotal ms x h
  have hsum := partsTotal_add_remAfter hunits ms
  obtain ⟨tq, htq⟩ := dvd_partsTotal hunits
    (fun p hp => (hunits_wf p hp).2.2.2.2.1) ms
  by_cases hrem : remAfter hunits ms = 0
  · exact absurd (⟨tq, by omega⟩ : 1000 ∣ ms) hnd
  · omega

theorem claim_C10_humanize_truncates_witness :
    (¬ ((1000 : Nat) ∣ 1500) ∧
      humanize_ms 1500 = humanize_ms (1000 * (1500 / 1000))) ∧
    humanize_ms 999 = "0s" ∧ humanize_ms 1500 = "1s" ∧
    parse_duration_ms (humanize_ms 1500) = some 1000 ∧
    (1000 : Nat) < 1500 :=
  ⟨⟨by decide, (claim_C10_humanize_truncates 1500 (by decide)).1⟩,
   by decide, by decide, by decide,
   (claim_C10_humanize_truncates 1500 (by decide)).2 1000 (by decide)⟩

/-- Claim C9: every ledger mutation — case-number allocation, mod-log
channel update, case index write, warning append and warning clear —
preserves every key of the `modules` document other than the one
ledger-owned sub-key it updates. -/
theorem claim_C9_frame_preservation :
    (∀ (mods : List (String × JVal)) (k : String), k ≠ "case_seq" →
      jget (next_case_number mods).2 k = jget mods k) ∧
    (∀ (mods : List (String × JVal)) (cid : Nat) (k : String),
      k ≠ "modlog_channel_id" →
      jget (set_modlog_channel_id mods cid) k = jget mods k) ∧
    (∀ (mods : List (String × JVal)) (c ch m : Nat) (u : Option Nat)
      (k : String), k ≠ "case_index" →
      jget (set_case_index_entry mods c ch m u) k = jget mods k) ∧
    (∀ (mods : List (String × JVal)) (uid r mo t : String) (k : String),
      k ≠ "warns" →
      jget (append_warning mods uid r mo t) k = jget mods k) ∧
    (∀ (mods : List (String × JVal)) (uid : String) (k : String),
      k ≠ "warns" →
      jget (clear_warnings mods uid).2 k = jget mods k) := by
  refine ⟨fun mods k hk => jget_jset_ne mods _ k _ hk,
    fun mods cid k hk => jget_jset_ne mods _ k _ hk,
    fun mods c ch m u k hk => jget_jset_ne mods _ k _ hk,
    fun mods uid r mo t k hk => jget_jset_ne mods _ k _ hk,
    fun mods uid k hk => ?_⟩
  rw [clear_warnings]
  by_cases h : (jget (warns_obj mods) uid).isSome
  · simp only [if_pos h]
    exact jget_jset_ne mods _ k _ hk
  · simp only [if_neg h]

theorem claim_C9_frame_preservation_witness :
    jget (next_case_number [("other", JVal.jstr "keep")]).2 "other"
      = jget [("other", JVal.jstr "keep")] "other" ∧
    jget (set_modlog_channel_id [("other", JVal.jstr "keep")] 5) "other"
      = jget [("other", JVal.jstr "keep")] "other" ∧
    jget (set_case_index_entry [("other", JVal.jstr "keep")] 1 2 3 (some 4))
        "other" = jget [("other", JVal.jstr "keep")] "other" ∧
    jget (append_warning [("other", JVal.jstr "keep")] "9" "r" "m" "t")
        "other" = jget [("other", JVal.jstr "keep")] "other" ∧
    jget (clear_warnings [("other", JVal.jstr "keep")] "9").2 "other"
      = jget [("other", JVal.jstr "keep")] "other" :=
  ⟨claim_C9_frame_preservation.1 _ "other" (by decide),
   claim_C9_frame_preservation.2.1 _ 5 "other" (by decide),
   claim_C9_frame_preservation.2.2.1 _ 1 2 3 (some 4) "other" (by decide),
   claim_C9_frame_preservation.2.2.2.1 _ "9" "r" "m" "t" "other" (by decide),
   claim_C9_frame_preservation.2.2.2.2 _ "9" "other" (by decide)⟩

theorem warns_obj_jset (mods : List (String × JVal))
    (o : List (String × JVal)) :
    warns_obj (jset mods "warns" (.jobj o)) = o := by
  unfold warns_obj
  rw [jget_jset_eq]

/-- Claim C8: after three `append_warning` calls for one subject,
the warning reason-patch changes only the third (most recent)
warning's reason; the subject still has exactly three warnings in the
original append order, and the patch reports false and leaves the
state untouched when the subject has no warnings. -/
theorem claim_C8_warning_patch :
    (∀ (mods : List (String × JVal)) (u r1 m1 t1 r2 m2 t2 r3 m3 t3 nr : String),
      jget (warns_obj mods) u = none →
      (patch_last_warning_reason
          (append_warning (append_warning (append_warning mods u r1 m1 t1)
            u r2 m2 t2) u r3 m3 t3) u nr).1 = true ∧
      list_warnings (patch_last_warning_reason
          (append_warning (append_warning (append_warning mods u r1 m1 t1)
            u r2 m2 t2) u r3 m3 t3) u nr).2 u
        = [warn_entry r1 m1 t1, warn_entry r2 m2 t2, warn_entry nr m3 t3] ∧
      list_warnings (append_warning (append_warning (append_warning mods
          u r1 m1 t1) u r2 m2 t2) u r3 m3 t3) u
        = [warn_entry r1 m1 t1, warn_entry r2 m2 t2, warn_entry r3 m3 t3]) ∧
    (∀ (mods : List (String × JVal)) (u nr : String),
      list_warnings mods u = [] →
      patch_last_warning_reason mods u nr = (false, mods)) := by
  constructor
  · intro mods u r1 m1 t1 r2 m2 t2 r3 m3 t3 nr h
    have h1 : append_warning mods u r1 m1 t1
        = jset mods "warns" (.jobj (jset (warns_obj mods) u
            (.jarr [warn_entry r1 m1 t1]))) := by
      simp only [append_warning, h, List.nil_append]
    have h2 : append_warning (append_warning mods u r1 m1 t1) u r2 m2 t2
        = jset (append_warning mods u r1 m1 t1) "warns"
            (.jobj (jset (jset (warns_obj mods) u (.jarr [warn_entry r1 m1 t1]))
              u (.jarr [warn_entry r1 m1 t1, warn_entry r2 m2 t2]))) := by
      conv_lhs => rw [append_warning]
      rw [h1, warns_obj_jset, jget_jset_eq, ← h1]
      rfl
    have h3 : append_warning (append_warning (append_warning mods u r1 m1 t1)
          u r2 m2 t2) u r3 m3 t3
        = jset (append_warning (append_warning mods u r1 m1 t1) u r2 m2 t2)
            "warns" (.jobj (jset (jset (jset (warns_obj mods) u
                (.jarr [warn_entry r1 m1 t1]))
              u (.jarr [warn_entry r1 m1 t1, warn_entry r2 m2 t2]))
              u (.jarr [warn_entry r1 m1 t1, warn_entry r2 m2 t2,
                warn_entry r3 m3 t3]))) := by
      conv_lhs => rw [append_warning]
      rw [h2, warns_obj_jset, jget_jset_eq, ← h2]
      rfl
    refine ⟨?_, ?_, ?_⟩
    · rw [patch_last_warning_reason, h3, warns_obj_jset, jget_jset_eq]
      rfl
    · rw [patch_last_warning_reason, h3, warns_obj_jset, jget_jset_eq]
      show list_warnings (jset _ "warns" (.jobj (jset _ u
        (.jarr ([warn_entry r1 m1 t1, warn_entry r2 m2 t2,
          warn_entry r3 m3 t3].dropLast
            ++ [set_warn_reason (warn_entry r3 m3 t3) nr]))))) u = _
      rw [list_warnings, warns_obj_jset, jget_jset_eq]
      rfl
    · rw [h3, list_warnings, warns_obj_jset, jget_jset_eq]
  · intro mods u nr h
    rw [list_warnings] at h
    rw [patch_last_warning_reason]
    cases hj : jget (warns_obj mods) u with
    | none => rfl
    | some v =>
      cases v with
      | jstr s => rfl
      | jobj o => rfl
      | jarr l =>
        rw [hj] at h
        subst h
        rfl

theorem claim_C8_warning_patch_witness :
    ((patch_last_warning_reason (append_warning (append_warning
        (append_warning [] "42" "r1" "m1" "t1") "42" "r2" "m2" "t2")
        "42" "r3" "m3" "t3") "42" "fixed").1 = true ∧
      list_warnings (patch_last_warning_reason (append_warning
        (append_warning (append_warning [] "42" "r1" "m1" "t1")
        "42" "r2" "m2" "t2") "42" "r3" "m3" "t3") "42" "fixed").2 "42"
        = [warn_entry "r1" "m1" "t1", warn_entry "r2" "m2" "t2",
           warn_entry "fixed" "m3" "t3"] ∧
      list_warnings (append_warning (append_warning (append_warning []
        "42" "r1" "m1" "t1") "42" "r2" "m2" "t2") "42" "r3" "m3" "t3") "42"
        = [warn_entry "r1" "m1" "t1", warn_entry "r2" "m2" "t2",
           warn_entry "r3" "m3" "t3"]) ∧
    patch_last_warning_reason [] "7" "x" = (false, []) :=
  ⟨claim_C8_warning_patch.1 [] "42" "r1" "m1" "t1" "r2" "m2" "t2"
      "r3" "m3" "t3" "fixed" rfl,
   claim_C8_warning_patch.2 [] "7" "x" rfl⟩

/-- Claim C1 (code bug in `_log_case`): on a community whose
`modlog_channel_id` is unset, the whole send/index/return block is
skipped — the case counter is still consumed (stored `"case_seq"`
becomes `"1"`), but no notice is sent anywhere (no fallback to the
invoking channel), no case-index entry is written, and the function
returns `None` instead of the case number, contradicting its own
docstring and `-> int` annotation. -/
theorem claim_C1_log_case_modlog_unset :
    (log_case [] ⟨true, 77, 123, some 42⟩).caseNo = none ∧
    (log_case [] ⟨true, 77, 123, some 42⟩).sentTo = none ∧
    jget (log_case [] ⟨true, 77, 123, some 42⟩).mods "case_index" = none ∧
    jget (log_case [] ⟨true, 77, 123, some 42⟩).mods "case_seq"
      = some (.jstr "1") :=
  ⟨rfl, rfl, rfl, rfl⟩

/-- Claim C5 as stated is false: `duration_cmd` parses the duration
text before the index lookup, so an absent case with unparseable text
yields InvalidDuration, not NotFound. -/
theorem claim_C5_counterexample :
    (duration_cmd [] 1 "abc"
        ⟨true, some [], none, fun _ => false, true, true⟩).outcome
      = DOutcome.invalidDuration ∧
    (duration_cmd [] 1 "abc"
        ⟨true, some [], none, fun _ => false, true, true⟩).outcome
      ≠ DOutcome.caseNotFound := by
  exact ⟨rfl, by decide⟩

/-- Claim C5 (amended): duration parsing and the 28-day cap run before
the index lookup; for every duration text that parses and is within
the cap, `duration_cmd` on a case number absent from the index fails
with NotFound and has no side effects. -/
theorem claim_C5_amended_notfound :
    ∀ (mods : List (String × JVal)) (case_no : Nat) (duration : String)
      (env : DurEnv) (ms : Nat),
      parse_duration_ms duration = some ms → ms ≤ max_ms →
      jget (case_index_obj mods) ⟨decRepr case_no⟩ = none →
      duration_cmd mods case_no duration env
        = ⟨.caseNotFound, none, none⟩ := by
  intro mods case_no duration env ms hp hle hidx
  have hpos : 0 < ms := parse_pos duration ms hp
  have h0 : ¬ ms = 0 := by omega
  have h1 : ¬ max_ms < ms := by omega
  simp [duration_cmd, hp, h0, h1, hidx]

theorem claim_C5_amended_notfound_witness :
    parse_duration_ms "2h" = some 7200000 ∧ 7200000 ≤ max_ms ∧
    duration_cmd [] 1 "2h" ⟨true, some [], none, fun _ => false, true, true⟩
      = ⟨.caseNotFound, none, none⟩ :=
  ⟨by decide, by decide,
   claim_C5_amended_notfound [] 1 "2h"
     ⟨true, some [], none, fun _ => false, true, true⟩ 7200000
     (by decide) (by decide) rfl⟩

/-- Claim C6: `duration_cmd` fails with InvalidDuration on unparseable
or zero duration text and with DurationTooLong above the 28-day cap
(e.g. on "40d"), and in both failure cases makes no timeout call and
writes no embed edit. -/
theorem claim_C6_invalid_and_cap :
    ∀ (mods : List (String × JVal)) (case_no : Nat) (duration : String)
      (env : DurEnv),
      (parse_duration_ms duration = none →
        duration_cmd mods case_no duration env
          = ⟨.invalidDuration, none, none⟩) ∧
      (∀ ms, parse_duration_ms duration = some ms → max_ms < ms →
        duration_cmd mods case_no duration env
          = ⟨.durationTooLong, none, none⟩) := by
  intro mods case_no duration env
  constructor
  · intro h
    simp [duration_cmd, h]
  · intro ms h hgt
    have hpos : 0 < ms := parse_pos duration ms h
    have h0 : ¬ ms = 0 := by omega
    simp [duration_cmd, h, h0, hgt]

theorem claim_C6_invalid_and_cap_witness :
    (parse_duration_ms "zz" = none ∧
      duration_cmd [("case_index", JVal.jobj [("1", JVal.jobj
          [("c", JVal.jstr "8"), ("m", JVal.jstr "9")])])] 1 "zz"
        ⟨true, some [], none, fun _ => false, true, true⟩
        = ⟨.invalidDuration, none, none⟩) ∧
    (parse_duration_ms "40d" = some 3456000000 ∧ max_ms < 3456000000 ∧
      duration_cmd [("case_index", JVal.jobj [("1", JVal.jobj
          [("c", JVal.jstr "8"), ("m", JVal.jstr "9")])])] 1 "40d"
        ⟨true, some [], none, fun _ => false, true, true⟩
        = ⟨.durationTooLong, none, none⟩) :=
  ⟨⟨by decide, (claim_C6_invalid_and_cap _ 1 "zz" _).1 (by decide)⟩,
   ⟨by decide, by decide,
    (claim_C6_invalid_and_cap _ 1 "40d" _).2 3456000000 (by decide) (by decide)⟩⟩

/-- Claim C7: on a case whose pipe-delimited author-line action token is
neither "mute" nor "timeout" (case-insensitively), `duration_cmd` with a
valid in-cap duration makes no Restriction Controller (timeout) call,
reports the plain-annotation outcome, and the edited notice differs from
the original only in the Duration field (replaced in place, or appended
when absent); every other field is unchanged. -/
theorem claim_C7_non_timeout_plain_edit :
    ∀ (mods : List (String × JVal)) (case_no : Nat) (duration : String)
      (ufid : Option Nat) (memf : Nat → Bool) (tok : Bool) (ms : Nat)
      (ek : String) (ev : JVal) (entryRest : List (String × JVal))
      (emb : MsgEmbed) (rest : List MsgEmbed),
      parse_duration_ms duration = some ms →
      ms ≤ max_ms →
      jget (case_index_obj mods) ⟨decRepr case_no⟩
        = some (.jobj ((ek, ev) :: entryRest)) →
      ((pySplit '|' emb.authorName.data).map pyStripLower).getD 1 []
        ≠ "mute".data →
      ((pySplit '|' emb.authorName.data).map pyStripLower).getD 1 []
        ≠ "timeout".data →
      (duration_cmd mods case_no duration
          ⟨true, some (emb :: rest), ufid, memf, tok, true⟩).timeoutCall
        = none ∧
      (duration_cmd mods case_no duration
          ⟨true, some (emb :: rest), ufid, memf, tok, true⟩).outcome
        = .updatedPlain ∧
      ∃ e', (duration_cmd mods case_no duration
          ⟨true, some (emb :: rest), ufid, memf, tok, true⟩).editedEmbed
            = some e' ∧
        e'.authorName = emb.authorName ∧
        (match emb.fields.findIdx?
            (fun f => pyStripLower f.name.data == "duration".data) with
         | some i =>
             e'.fields.length = emb.fields.length ∧
             e'.fields[i]? = some ⟨"Duration", humanize_ms ms, true⟩ ∧
             ∀ j, j ≠ i → e'.fields[j]? = emb.fields[j]?
         | none =>
             e'.fields = emb.fields ++ [⟨"Duration", humanize_ms ms, true⟩]) := by
  intro mods case_no duration ufid memf tok ms ek ev entryRest emb rest
    hp hle hidx hm ht
  have hpos : 0 < ms := parse_pos duration ms hp
  have h0 : ¬ ms = 0 := by omega
  have h1 : ¬ max_ms < ms := by omega
  have hb1 : (((pySplit '|' emb.authorName.data).map pyStripLower).getD 1 []
      == "mute".data) = false := beq_eq_false_iff_ne.mpr hm
  have hb2 : (((pySplit '|' emb.authorName.data).map pyStripLower).getD 1 []
      == "timeout".data) = false := beq_eq_false_iff_ne.mpr ht
  have hred : duration_cmd mods case_no duration
      ⟨true, some (emb :: rest), ufid, memf, tok, true⟩
      = ⟨.updatedPlain, none, some ⟨emb.authorName,
          match emb.fields.findIdx?
              (fun f => pyStripLower f.name.data == "duration".data) with
          | some i => emb.fields.set i ⟨"Duration", humanize_ms ms, true⟩
          | none => emb.fields ++ [⟨"Duration", humanize_ms ms, true⟩]⟩⟩ := by
    simp only [duration_cmd, hp, h0, h1, hidx, hb1, hb2, if_false, if_true,
      not_true, Bool.or_false, Bool.false_and, Option.isSome_none,
      Bool.false_eq_true, not_false_eq_true, ite_true, ite_false]
  refine ⟨by rw [hred], by rw [hred], ⟨emb.authorName,
    match emb.fields.findIdx?
        (fun f => pyStripLower f.name.data == "duration".data) with
    | some i => emb.fields.set i ⟨"Duration", humanize_ms ms, true⟩
    | none => emb.fields ++ [⟨"Duration", humanize_ms ms, true⟩]⟩,
    by rw [hred], rfl, ?_⟩
  cases hidxf : emb.fields.findIdx?
      (fun f => pyStripLower f.name.data == "duration".data) with
  | some i =>
    have hlt : i < emb.fields.length :=
      (List.findIdx?_eq_some_iff_findIdx_eq.1 hidxf).1
    refine ⟨by simp, by simp [List.getElem?_set_self hlt], ?_⟩
    intro j hj
    exact List.getElem?_set_ne (fun hh => hj hh.symm)
  | none => rfl

theorem claim_C7_non_timeout_plain_edit_witness :
    parse_duration_ms "2h" = some 7200000 ∧
    ((pySplit '|' ("Case 1 | Kick | bob" : String).data).map
        pyStripLower).getD 1 [] ≠ "mute".data ∧
    (duration_cmd [("case_index", JVal.jobj [("1", JVal.jobj
        [("c", JVal.jstr "8"), ("m", JVal.jstr "9"), ("u", JVal.jstr "42")])])]
      1 "2h" ⟨true, some [⟨"Case 1 | Kick | bob",
        [⟨"User", "u", true⟩, ⟨"Moderator", "m", true⟩,
         ⟨"Reason", "r", false⟩, ⟨"Duration", "old", true⟩]⟩], none,
        fun _ => false, true, true⟩).timeoutCall = none ∧
    (duration_cmd [("case_index", JVal.jobj [("1", JVal.jobj
        [("c", JVal.jstr "8"), ("m", JVal.jstr "9"), ("u", JVal.jstr "42")])])]
      1 "2h" ⟨true, some [⟨"Case 1 | Kick | bob",
        [⟨"User", "u", true⟩, ⟨"Moderator", "m", true⟩,
         ⟨"Reason", "r", false⟩, ⟨"Duration", "old", true⟩]⟩], none,
        fun _ => false, true, true⟩).outcome = DOutcome.updatedPlain :=
  ⟨by decide, by decide,
   (claim_C7_non_timeout_plain_edit [("case_index", JVal.jobj [("1",
       JVal.jobj [("c", JVal.jstr "8"), ("m", JVal.jstr "9"),
         ("u", JVal.jstr "42")])])] 1 "2h" none (fun _ => false) true
     7200000 "c" (JVal.jstr "8") [("m", JVal.jstr "9"), ("u", JVal.jstr "42")]
     ⟨"Case 1 | Kick | bob",
       [⟨"User", "u", true⟩, ⟨"Moderator", "m", true⟩,
        ⟨"Reason", "r", false⟩, ⟨"Duration", "old", true⟩]⟩ []
     (by decide) (by decide) rfl (by decide) (by decide)).1,
   (claim_C7_non_timeout_plain_edit [("case_index", JVal.jobj [("1",
       JVal.jobj [("c", JVal.jstr "8"), ("m", JVal.jstr "9"),
         ("u", JVal.jstr "42")])])] 1 "2h" none (fun _ => false) true
     7200000 "c" (JVal.jstr "8") [("m", JVal.jstr "9"), ("u", JVal.jstr "42")]
     ⟨"Case 1 | Kick | bob",
       [⟨"User", "u", true⟩, ⟨"Moderator", "m", true⟩,
        ⟨"Reason", "r", false⟩, ⟨"Duration", "old", true⟩]⟩ []
     (by decide) (by decide) rfl (by decide) (by decide)).2.1⟩
